import Mathlib

/- Shallow embedding of `src/audit-git-commit-jira-issue.py`.

   Strings are modelled as `String` / `List Char`.  Python regular-expression
   matching with `re.match` (anchored at the start of the string, not at the
   end) is modelled by hand-rolled anchored matchers; the class `\s` and the
   class `\d` are taken over ASCII, and `re.IGNORECASE` is modelled with
   `Char.toLower`, which performs exactly the ASCII case folding that CPython
   applies to ASCII characters.  Sets of issue ids are modelled as
   `Finset String` and Python's `sorted` on strings as `Finset.sort (· ≤ ·)`
   with the lexicographic order on `String`. -/

namespace Audit

/-- ASCII model of the regex class `\s`, i.e. `[ \t\n\r\x0b\x0c]`. -/
def isSpaceChar (c : Char) : Bool :=
  c = ' ' || c = '\t' || c = '\n' || c = '\r' || c = '\x0b' || c = '\x0c'

/-- Case-insensitive character comparison, as under `re.IGNORECASE`. -/
def ciEq (p c : Char) : Bool :=
  p.toLower == c.toLower

/-- Match a literal pattern case-insensitively at the head of the input;
    on success return the consumed input characters and the remaining input. -/
def consumeCI : List Char → List Char → Option (List Char × List Char)
  | [], s => some ([], s)
  | _ :: _, [] => none
  | p :: ps, c :: cs =>
    if ciEq p c then
      match consumeCI ps cs with
      | some (k, r) => some (c :: k, r)
      | none => none
    else none

/-- The pattern `lit` (a case-insensitive literal) followed by the pattern
    recognised by the continuation `k`. -/
def litThenCI (lit : String) (s : List Char) (k : List Char → Bool) : Bool :=
  match consumeCI lit.toList s with
  | some (_, r) => k r
  | none => false

/-- The regex `.+` with nothing after it: at least one character, where `.`
    matches anything but a newline. -/
def dotPlus : List Char → Bool
  | [] => false
  | c :: _ => c != '\n'

/-- The regex `.` (one non-newline character) followed by the pattern `k`. -/
def anyThen (s : List Char) (k : List Char → Bool) : Bool :=
  match s with
  | [] => false
  | c :: cs => c != '\n' && k cs

/-- An optional case-insensitive literal `(lit)?` followed by the pattern `k`,
    with the regex engine's backtracking (greedy branch first; as a boolean
    this is simply the disjunction of the two branches). -/
def optThen (lit : String) (s : List Char) (k : List Char → Bool) : Bool :=
  litThenCI lit s k || k s

/-- The leading `\s*` of a pattern: greedily drop whitespace.  (Backtracking
    never helps here because in every pattern below the character after `\s*`
    is not a whitespace character.) -/
def dropSpaces (s : List Char) : List Char :=
  s.dropWhile (fun c => isSpaceChar c)

/-- `re.compile(r'^preparing development version.+', re.IGNORECASE)` -/
def skip1 (s : List Char) : Bool :=
  litThenCI "preparing development version" s dotPlus

/-- `re.compile(r'^preparing hbase release.+', re.IGNORECASE)` -/
def skip2 (s : List Char) : Bool :=
  litThenCI "preparing hbase release" s dotPlus

/-- `re.compile(r'^\s*updated? pom.xml version (for|to) .+', re.IGNORECASE)` -/
def skip3 (s : List Char) : Bool :=
  litThenCI "update" (dropSpaces s) fun r =>
    optThen "d" r fun r2 =>
      litThenCI " pom" r2 fun r3 =>
        anyThen r3 fun r4 =>
          litThenCI "xml version " r4 fun r5 =>
            litThenCI "for " r5 dotPlus || litThenCI "to " r5 dotPlus

/-- `re.compile(r'^\s*updated? chang', re.IGNORECASE)` -/
def skip4 (s : List Char) : Bool :=
  litThenCI "update" (dropSpaces s) fun r =>
    optThen "d" r fun r2 =>
      litThenCI " chang" r2 fun _ => true

/-- `re.compile(r'^\s*updated? (book|docs|documentation)', re.IGNORECASE)` -/
def skip5 (s : List Char) : Bool :=
  litThenCI "update" (dropSpaces s) fun r =>
    optThen "d" r fun r2 =>
      litThenCI " book" r2 (fun _ => true) ||
      litThenCI " docs" r2 (fun _ => true) ||
      litThenCI " documentation" r2 (fun _ => true)

/-- `re.compile(r'^\s*updating (docs|changes).+', re.IGNORECASE)` -/
def skip6 (s : List Char) : Bool :=
  litThenCI "updating " (dropSpaces s) fun r =>
    litThenCI "docs" r dotPlus || litThenCI "changes" r dotPlus

/-- `re.compile(r'^\s*bump (pom )?versions?', re.IGNORECASE)` -/
def skip7 (s : List Char) : Bool :=
  litThenCI "bump " (dropSpaces s) fun r =>
    optThen "pom " r fun r2 =>
      litThenCI "version" r2 fun _ => true

/-- `re.compile(r'^\s*updated? (version|poms|changes).+', re.IGNORECASE)` -/
def skip8 (s : List Char) : Bool :=
  litThenCI "update" (dropSpaces s) fun r =>
    optThen "d" r fun r2 =>
      litThenCI " version" r2 dotPlus ||
      litThenCI " poms" r2 dotPlus ||
      litThenCI " changes" r2 dotPlus

/-- `RepoReader._skip`: `any([p.match(summary) for p in RepoReader._skip_patterns])`. -/
def _skip (summary : String) : Bool :=
  skip1 summary.toList || skip2 summary.toList || skip3 summary.toList ||
  skip4 summary.toList || skip5 summary.toList || skip6 summary.toList ||
  skip7 summary.toList || skip8 summary.toList

/-- The class `[\s\[]*` that begins each of the four issue-id patterns. -/
def dropSpaceBracket (s : List Char) : List Char :=
  s.dropWhile (fun c => isSpaceChar c || c == '[')

/-- One issue-id pattern `^[\s\[]*(lit\d+)` applied to an input whose leading
    `[\s\[]*` class has already been stripped; returns the captured group
    (the literal as it appears in the input, followed by the maximal run of
    digits, which must be non-empty). -/
def matchIdPattern (lit : String) (t : List Char) : Option (List Char) :=
  match consumeCI lit.toList t with
  | some (k, r) =>
    let ds := r.takeWhile Char.isDigit
    if ds.isEmpty then none else some (k ++ ds)
  | none => none

/-- `RepoReader._identify_leading_jira_id_patterns`, tried in order with the
    first match winning.  All four patterns begin with the same class
    `[\s\[]*`, so it is stripped once up front. -/
def firstIdMatch (t0 : List Char) : Option (List Char) :=
  let t := dropSpaceBracket t0
  match matchIdPattern "hbase-" t with
  | some g => some g
  | none =>
    match matchIdPattern "hbse-" t with
    | some g => some g
    | none =>
      match matchIdPattern "hbae-" t with
      | some g => some g
      | none => matchIdPattern "hbase " t

/-- `re.sub(r'HBSE-|HBAE-|HBASE ', 'HBASE-', s)`: scan left to right, replace
    every occurrence of one of the three case-sensitive alternatives by
    `HBASE-` and continue after the replaced occurrence (non-overlapping).
    The three alternatives are mutually exclusive at any one position, so the
    top-down order of the match arms below is exactly the alternation order. -/
def subHbase : List Char → List Char
  | 'H' :: 'B' :: 'S' :: 'E' :: '-' :: rest =>
    'H' :: 'B' :: 'A' :: 'S' :: 'E' :: '-' :: subHbase rest
  | 'H' :: 'B' :: 'A' :: 'E' :: '-' :: rest =>
    'H' :: 'B' :: 'A' :: 'S' :: 'E' :: '-' :: subHbase rest
  | 'H' :: 'B' :: 'A' :: 'S' :: 'E' :: ' ' :: rest =>
    'H' :: 'B' :: 'A' :: 'S' :: 'E' :: '-' :: subHbase rest
  | c :: cs => c :: subHbase cs
  | [] => []

/-- A git commit, reduced to the only field the script reads. -/
structure Commit where
  summary : String

/-- `RepoReader.extract_leading_jira_id`. -/
def extract_leading_jira_id (commit : Commit) : Option String :=
  if _skip commit.summary then none
  else
    match firstIdMatch commit.summary.toList with
    | some g => some (String.mk (subHbase (g.map Char.toUpper)))
    | none => none

/-- `RepoReader.merge_base`: GitPython's `merge_base` returns a list of
    commits; Python's truthiness test `if commit:` succeeds exactly when that
    list is non-empty, in which case `commit[0]` is returned, and otherwise an
    exception is raised. -/
def merge_base {α : Type} (commits : List α) : Except String α :=
  match commits with
  | [] => Except.error "can not find merge base"
  | c :: _ => Except.ok c

/-- `missed_issues_in_previous_release`: the list of issues printed, in the
    order printed (`sorted` over Python strings is the lexicographic order). -/
def missed_issues_in_previous_release
    (issues_in_git_commits issues_in_git_commits_previous_release
     ignore_missing_in_current_release : Finset String) : List String :=
  ((issues_in_git_commits_previous_release \ issues_in_git_commits).filter
    (fun i => i ∉ ignore_missing_in_current_release)).sort (· ≤ ·)

/-- `audit_jira_issues_and_git_commits`: the two lists of issues printed
    ("in jira but not in git commits" first, "in git commits but not in jira"
    second), each in the order printed. -/
def audit_jira_issues_and_git_commits
    (issues_in_jira issues_in_git_commits ignore_missing_in_git
     ignore_missing_in_jira : Finset String) : List String × List String :=
  (((issues_in_jira \ issues_in_git_commits).filter
      (fun i => i ∉ ignore_missing_in_git)).sort (· ≤ ·),
   ((issues_in_git_commits \ issues_in_jira).filter
      (fun i => i ∉ ignore_missing_in_jira)).sort (· ≤ ·))

/-- Helper for `splitTokens`: `tok` holds the characters of the token being
    scanned, in reverse order. -/
def splitTokensAux : List Char → List Char → List (List Char)
  | [], tok => if tok.isEmpty then [] else [tok.reverse]
  | c :: cs, tok =>
    if isSpaceChar c then
      if tok.isEmpty then splitTokensAux cs [] else tok.reverse :: splitTokensAux cs []
    else splitTokensAux cs (c :: tok)

/-- Python `str.split()` with no argument: split on runs of whitespace,
    discarding empty tokens. -/
def splitTokens (s : List Char) : List (List Char) :=
  splitTokensAux s []

/-- `read_jira_issues_from_file`: the argument is `none` when no file path was
    given on the command line (Python's falsy `if file:` branch) and otherwise
    the list of lines of the file.  The result is `none` exactly when
    `l.split()[0]` raises an uncaught IndexError, i.e. when some line has no
    whitespace-separated token. -/
def read_jira_issues_from_file (file : Option (List String)) : Option (Finset String) :=
  match file with
  | none => some ∅
  | some lines =>
    (lines.mapM (fun l => (splitTokens l.toList).head?)).map
      (fun ts => (ts.map String.mk).toFinset)

/-- The report wiring of the `__main__` block (source lines 156-170), given
    the already-collected issue sets and the contents of the three optional
    ignore files.  Note the faithful reproduction of line 167: the set
    `ignore_missing_in_jira` passed to `audit_jira_issues_and_git_commits` is
    `set(ignore_missing_in_current_release)`; the `--ignore-missing-in-jira`
    argument (`ignore_jira_file` here) is never read. -/
def main_reports
    (issues_in_jira issues_in_git_commits issues_in_git_commits_previous_release : Finset String)
    (ignore_current_file ignore_git_file ignore_jira_file : Option (List String)) :
    Option (List String × List String × List String) :=
  match read_jira_issues_from_file ignore_current_file with
  | none => none
  | some ignore_missing_in_current_release =>
    let r1 := missed_issues_in_previous_release issues_in_git_commits
      issues_in_git_commits_previous_release ignore_missing_in_current_release
    match read_jira_issues_from_file ignore_git_file with
    | none => none
    | some ignore_missing_in_git =>
      let ignore_missing_in_jira := ignore_missing_in_current_release
      let p := audit_jira_issues_and_git_commits issues_in_jira
        (issues_in_git_commits \ issues_in_git_commits_previous_release)
        ignore_missing_in_git ignore_missing_in_jira
      some (r1, p.1, p.2)


/-! ### Helper lemmas -/

/-- `\s*` absorbs any whitespace prefixed to the input. -/
theorem dropSpaces_append_ws (ws s : List Char) (h : ∀ c ∈ ws, isSpaceChar c = true) :
    dropSpaces (ws ++ s) = dropSpaces s := by
  unfold dropSpaces
  exact List.dropWhile_append_of_pos h

/-- Sorting a finset known to be empty. -/
theorem sort_of_eq_empty {s : Finset String} (h : s = ∅) : s.sort (· ≤ ·) = [] := by
  rw [h]
  exact Finset.sort_empty _

/-- Sorting a finset known to be a singleton. -/
theorem sort_of_eq_singleton {s : Finset String} {a : String} (h : s = {a}) :
    s.sort (· ≤ ·) = [a] := by
  rw [h]
  exact Finset.sort_singleton _ _

/-! ### Claim theorems -/

/-- C1: for every commit whose summary matches at least one administrative skip
    pattern, `extract_leading_jira_id` returns `none`, whatever else the
    summary contains — the skip filter is consulted before any id-extraction
    pattern is tried. -/
theorem extract_none_of_skip (c : Commit) (h : _skip c.summary = true) :
    extract_leading_jira_id c = none := by
  unfold extract_leading_jira_id
  simp [h]

/-- Witness for C1 at a summary that matches a skip pattern and also contains
    an issue-id-shaped token. -/
theorem extract_none_of_skip_witness :
    _skip "Updated CHANGES for HBASE-123" = true ∧
    extract_leading_jira_id ⟨"Updated CHANGES for HBASE-123"⟩ = none :=
  ⟨by decide, extract_none_of_skip ⟨"Updated CHANGES for HBASE-123"⟩ (by decide)⟩

/-- C4 (counterexample): skip pattern 1 (`^preparing development version.+`)
    matches a summary but not the same summary prefixed with a space, and no
    skip pattern at all matches the whitespace-prefixed summary — refuting the
    claim that every skip pattern tolerates optional leading whitespace. -/
theorem skip_whitespace_claim_cex :
    skip1 "preparing development version 2.0".toList = true ∧
    skip1 " preparing development version 2.0".toList = false ∧
    _skip "preparing development version 2.0" = true ∧
    _skip " preparing development version 2.0" = false := by
  refine ⟨by decide, by decide, by decide, by decide⟩

/-- C4 (amended): skip patterns 3–8 (the `updated?`/`updating`/`bump`
    patterns, which start with `\s*`) tolerate any amount of leading
    whitespace, while the two `Preparing ...` patterns are anchored at
    position 0: a summary of spaces followed by `Preparing development
    version ...` matches no skip pattern (extraction still returns `none`
    for it, but only because no id pattern matches either). -/
theorem skip_whitespace_amended :
    (∀ (ws s : List Char), (∀ c ∈ ws, isSpaceChar c = true) →
      skip3 (ws ++ s) = skip3 s ∧ skip4 (ws ++ s) = skip4 s ∧
      skip5 (ws ++ s) = skip5 s ∧ skip6 (ws ++ s) = skip6 s ∧
      skip7 (ws ++ s) = skip7 s ∧ skip8 (ws ++ s) = skip8 s) ∧
    _skip "  Preparing development version 2.0" = false ∧
    extract_leading_jira_id ⟨"  Preparing development version 2.0"⟩ = none := by
  refine ⟨fun ws s h => ?_, by decide, by decide⟩
  have hd := dropSpaces_append_ws ws s h
  unfold skip3 skip4 skip5 skip6 skip7 skip8
  rw [hd]
  exact ⟨rfl, rfl, rfl, rfl, rfl, rfl⟩

/-- Witness for C4 (amended) at one concrete whitespace prefix and summary. -/
theorem skip_whitespace_amended_witness :
    skip8 ([' '] ++ "updated changes!".toList) = skip8 "updated changes!".toList ∧
    skip8 "updated changes!".toList = true :=
  ⟨(skip_whitespace_amended.1 [' '] "updated changes!".toList (by decide)).2.2.2.2.2,
   by decide⟩

/-- C5: `missed_issues_in_previous_release` prints exactly
    `previousSet − currentSet − ignore`, sorted ascending (lexicographically,
    as Python sorts strings) and without duplicates; in particular
    `missedInPreviousRelease({"HBASE-1"}, {"HBASE-1","HBASE-2"}, {})`
    prints exactly `["HBASE-2"]`. -/
theorem missed_issues_exact :
    (∀ (currentSet previousSet ignore : Finset String),
      (missed_issues_in_previous_release currentSet previousSet ignore).Sorted (· ≤ ·) ∧
      (missed_issues_in_previous_release currentSet previousSet ignore).Nodup ∧
      (∀ x, x ∈ missed_issues_in_previous_release currentSet previousSet ignore ↔
        x ∈ previousSet ∧ x ∉ currentSet ∧ x ∉ ignore)) ∧
    missed_issues_in_previous_release {"HBASE-1"} {"HBASE-1", "HBASE-2"} ∅ = ["HBASE-2"] := by
  constructor
  · intro cur prev ign
    refine ⟨Finset.sort_sorted _ _, Finset.sort_nodup _ _, fun x => ?_⟩
    unfold missed_issues_in_previous_release
    simp [Finset.mem_sort, Finset.mem_filter, Finset.mem_sdiff, and_assoc]
  · unfold missed_issues_in_previous_release
    exact sort_of_eq_singleton (by decide)

/-- C6: `audit_jira_issues_and_git_commits` prints exactly
    `trackerSet − commitSet − ignoreMissingInGit` (first report) and
    `commitSet − trackerSet − ignoreMissingInJira` (second report), each
    sorted ascending and duplicate-free; in particular with
    trackerSet `{"HBASE-1","HBASE-2"}`, commitSet `{"HBASE-1"}` and
    first-report ignore-set `{"HBASE-2"}` nothing is printed. -/
theorem audit_reports_exact :
    (∀ (trackerSet commitSet ignoreGit ignoreJira : Finset String),
      (audit_jira_issues_and_git_commits trackerSet commitSet ignoreGit ignoreJira).1.Sorted (· ≤ ·) ∧
      (audit_jira_issues_and_git_commits trackerSet commitSet ignoreGit ignoreJira).1.Nodup ∧
      (∀ x, x ∈ (audit_jira_issues_and_git_commits trackerSet commitSet ignoreGit ignoreJira).1 ↔
        x ∈ trackerSet ∧ x ∉ commitSet ∧ x ∉ ignoreGit) ∧
      (audit_jira_issues_and_git_commits trackerSet commitSet ignoreGit ignoreJira).2.Sorted (· ≤ ·) ∧
      (audit_jira_issues_and_git_commits trackerSet commitSet ignoreGit ignoreJira).2.Nodup ∧
      (∀ x, x ∈ (audit_jira_issues_and_git_commits trackerSet commitSet ignoreGit ignoreJira).2 ↔
        x ∈ commitSet ∧ x ∉ trackerSet ∧ x ∉ ignoreJira)) ∧
    audit_jira_issues_and_git_commits {"HBASE-1", "HBASE-2"} {"HBASE-1"} {"HBASE-2"} ∅ =
      ([], []) := by
  constructor
  · intro tr cm ig ij
    refine ⟨Finset.sort_sorted _ _, Finset.sort_nodup _ _, fun x => ?_,
            Finset.sort_sorted _ _, Finset.sort_nodup _ _, fun x => ?_⟩ <;>
      · unfold audit_jira_issues_and_git_commits
        simp [Finset.mem_sort, Finset.mem_filter, Finset.mem_sdiff, and_assoc]
  · unfold audit_jira_issues_and_git_commits
    rw [sort_of_eq_empty (by decide), sort_of_eq_empty (by decide)]

/-- C7: extraction is total and silent on non-matching input: the empty
    summary yields `none`, and whenever neither a skip pattern nor an
    id pattern matches, the result is `none` rather than an error. -/
theorem extract_no_match_none :
    extract_leading_jira_id ⟨""⟩ = none ∧
    ∀ (c : Commit), _skip c.summary = false →
      firstIdMatch c.summary.toList = none →
      extract_leading_jira_id c = none := by
  refine ⟨by decide, fun c h1 h2 => ?_⟩
  unfold extract_leading_jira_id
  simp only [String.toList] at h2
  simp [h1, h2]

/-- Witness for C7 at a malformed summary that matches nothing. -/
theorem extract_no_match_none_witness :
    _skip "no issue referenced here" = false ∧
    firstIdMatch "no issue referenced here".toList = none ∧
    extract_leading_jira_id ⟨"no issue referenced here"⟩ = none :=
  ⟨by decide, by decide,
   extract_no_match_none.2 ⟨"no issue referenced here"⟩ (by decide) (by decide)⟩

/-- C8: `merge_base` fails exactly when the underlying repository reports an
    empty list of common ancestors; otherwise it returns the first reported
    merge-base commit. -/
theorem merge_base_error_iff_empty :
    ∀ (commits : List String),
      ((∃ msg, merge_base commits = Except.error msg) ↔ commits = []) ∧
      (∀ c rest, commits = c :: rest → merge_base commits = Except.ok c) := by
  intro commits
  cases commits with
  | nil =>
    refine ⟨⟨fun _ => rfl, fun _ => ⟨"can not find merge base", rfl⟩⟩, ?_⟩
    intro c rest h
    exact absurd h (by simp)
  | cons a as =>
    refine ⟨⟨?_, ?_⟩, ?_⟩
    · rintro ⟨msg, hm⟩
      exact absurd hm (by simp [merge_base])
    · intro h
      exact absurd h (by simp)
    · intro c rest h
      cases h
      rfl

/-- Witness for C8 at a two-element commit list. -/
theorem merge_base_error_iff_empty_witness :
    merge_base ["base-commit", "other"] = Except.ok "base-commit" :=
  (merge_base_error_iff_empty ["base-commit", "other"]).2 "base-commit" ["other"] rfl

/-- `List.mapM` over `Option` fails exactly when `f` fails on some element. -/
theorem mapM_eq_none_iff {α β : Type} (f : α → Option β) :
    ∀ (xs : List α), xs.mapM f = none ↔ ∃ x ∈ xs, f x = none := by
  intro xs
  induction xs with
  | nil =>
    rw [show ([] : List α).mapM f = some [] from rfl]
    simp
  | cons a as ih =>
    rw [List.mapM_cons]
    constructor
    · intro h
      cases hfa : f a with
      | none => exact ⟨a, List.mem_cons_self a as, hfa⟩
      | some b =>
        rw [hfa] at h
        cases hm : as.mapM f with
        | none =>
          obtain ⟨x, hx, hfx⟩ := ih.mp hm
          exact ⟨x, List.mem_cons_of_mem a hx, hfx⟩
        | some bs =>
          rw [hm] at h
          simp at h
    · rintro ⟨x, hx, hfx⟩
      rcases List.mem_cons.mp hx with rfl | hx2
      · rw [hfx]
        rfl
      · cases hfa : f a with
        | none => rfl
        | some b =>
          have hm : as.mapM f = none := ih.mpr ⟨x, hx2, hfx⟩
          rw [hm]
          rfl

/-- A token in progress guarantees `splitTokensAux` returns something. -/
theorem splitTokensAux_cons_ne_nil :
    ∀ (s : List Char) (c : Char) (tok : List Char), splitTokensAux s (c :: tok) ≠ [] := by
  intro s
  induction s with
  | nil =>
    intro c tok
    simp [splitTokensAux]
  | cons a as ih =>
    intro c tok
    by_cases ha : isSpaceChar a = true
    · simp [splitTokensAux, ha]
    · simp only [splitTokensAux, ha]
      simp only [Bool.false_eq_true, if_false]
      exact ih a (c :: tok)

/-- `splitTokens` yields no token exactly on all-whitespace input. -/
theorem splitTokens_eq_nil_iff :
    ∀ (t : List Char), splitTokens t = [] ↔ ∀ c ∈ t, isSpaceChar c = true := by
  intro t
  unfold splitTokens
  induction t with
  | nil => simp [splitTokensAux]
  | cons c cs ih =>
    by_cases hc : isSpaceChar c = true
    · simp [splitTokensAux, hc, ih]
    · simp only [splitTokensAux, hc]
      simp only [Bool.false_eq_true, if_false, List.isEmpty_nil]
      constructor
      · intro h
        exact absurd h (splitTokensAux_cons_ne_nil cs c [])
      · intro h
        exact absurd (h c (List.mem_cons_self c cs)) (by simp [hc])

/-- C10: `read_jira_issues_from_file` on a present file raises an uncaught
    IndexError (modelled as `none`) exactly when some line of the file has no
    whitespace-separated token, i.e. is empty or all-whitespace; such lines
    are not skipped, so the read is total only when every line has a token. -/
theorem read_file_crash_iff :
    (∀ (lines : List String),
      (read_jira_issues_from_file (some lines) = none ↔
        ∃ l ∈ lines, splitTokens l.toList = [])) ∧
    (∀ (t : List Char), splitTokens t = [] ↔ ∀ c ∈ t, isSpaceChar c = true) := by
  refine ⟨fun lines => ?_, splitTokens_eq_nil_iff⟩
  unfold read_jira_issues_from_file
  rw [Option.map_eq_none', mapM_eq_none_iff]
  constructor
  · rintro ⟨l, hl, h⟩
    exact ⟨l, hl, List.head?_eq_none_iff.mp h⟩
  · rintro ⟨l, hl, h⟩
    exact ⟨l, hl, List.head?_eq_none_iff.mpr h⟩

/-- C3 (code-bug evidence): the `__main__` wiring never reads the
    `--ignore-missing-in-jira` file: the reports are entirely independent of
    it (first conjunct), the set it lists is not subtracted from the
    "issues in git commits but not in jira" report (second conjunct), and
    that report instead subtracts the set read from the
    `--ignore-missing-in-current-release` file (third conjunct). -/
theorem main_ignores_jira_ignore_file :
    (∀ (issues_in_jira commits_cur commits_prev : Finset String)
        (ignore_cur_file ignore_git_file f g : Option (List String)),
      main_reports issues_in_jira commits_cur commits_prev ignore_cur_file ignore_git_file f =
        main_reports issues_in_jira commits_cur commits_prev ignore_cur_file ignore_git_file g) ∧
    main_reports ∅ {"HBASE-2"} ∅ none none (some ["HBASE-2"]) =
      some ([], [], ["HBASE-2"]) ∧
    main_reports ∅ {"HBASE-2"} ∅ (some ["HBASE-2"]) none (some ["HBASE-2"]) =
      some ([], [], []) := by
  refine ⟨fun _ _ _ _ _ _ _ => rfl, ?_, ?_⟩
  · have h1 : main_reports ∅ {"HBASE-2"} ∅ none none (some ["HBASE-2"]) =
        some (missed_issues_in_previous_release {"HBASE-2"} ∅ ∅,
          ((∅ \ ({"HBASE-2"} \ ∅) : Finset String).filter
            (fun i => i ∉ (∅ : Finset String))).sort (· ≤ ·),
          ((({"HBASE-2"} \ ∅ : Finset String) \ ∅).filter
            (fun i => i ∉ (∅ : Finset String))).sort (· ≤ ·)) := rfl
    have e1 : missed_issues_in_previous_release {"HBASE-2"} ∅ ∅ = [] := by
      unfold missed_issues_in_previous_release
      exact sort_of_eq_empty (by decide)
    have e2 : ((∅ \ ({"HBASE-2"} \ ∅) : Finset String).filter
        (fun i => i ∉ (∅ : Finset String))).sort (· ≤ ·) = [] :=
      sort_of_eq_empty (by decide)
    have e3 : ((({"HBASE-2"} \ ∅ : Finset String) \ ∅).filter
        (fun i => i ∉ (∅ : Finset String))).sort (· ≤ ·) = ["HBASE-2"] :=
      sort_of_eq_singleton (by decide)
    rw [h1, e1, e2, e3]
  · have h2 : main_reports ∅ {"HBASE-2"} ∅ (some ["HBASE-2"]) none (some ["HBASE-2"]) =
        some (missed_issues_in_previous_release {"HBASE-2"} ∅ {"HBASE-2"},
          ((∅ \ ({"HBASE-2"} \ ∅) : Finset String).filter
            (fun i => i ∉ (∅ : Finset String))).sort (· ≤ ·),
          ((({"HBASE-2"} \ ∅ : Finset String) \ ∅).filter
            (fun i => i ∉ ({"HBASE-2"} : Finset String))).sort (· ≤ ·)) := rfl
    have e4 : missed_issues_in_previous_release {"HBASE-2"} ∅ {"HBASE-2"} = [] := by
      unfold missed_issues_in_previous_release
      exact sort_of_eq_empty (by decide)
    have e5 : ((∅ \ ({"HBASE-2"} \ ∅) : Finset String).filter
        (fun i => i ∉ (∅ : Finset String))).sort (· ≤ ·) = [] :=
      sort_of_eq_empty (by decide)
    have e6 : ((({"HBASE-2"} \ ∅ : Finset String) \ ∅).filter
        (fun i => i ∉ ({"HBASE-2"} : Finset String))).sort (· ≤ ·) = [] :=
      sort_of_eq_empty (by decide)
    rw [h2, e4, e5, e6]

/-! ### Character-level lemmas for case-insensitive matching -/

/-- `Char.ofNat` of a valid codepoint round-trips through `toNat`. -/
theorem char_toNat_ofNat {n : Nat} (h : n.isValidChar) : (Char.ofNat n).toNat = n := by
  rw [Char.ofNat, dif_pos h]
  rfl

/-- `Char.toNat` is injective. -/
theorem char_toNat_inj {a b : Char} (h : a.toNat = b.toNat) : a = b := by
  have hab := Char.ofNat_toNat a
  rw [h, Char.ofNat_toNat] at hab
  exact hab.symm

/-- Codepoints below the surrogate range are valid. -/
theorem valid_small {n : Nat} (h : n < 55296) : n.isValidChar := Or.inl h

/-- Lower-casing first does not change the upper-cased result (ASCII). -/
theorem toUpper_toLower (c : Char) : c.toLower.toUpper = c.toUpper := by
  unfold Char.toLower Char.toUpper
  by_cases h : c.toNat ≥ 65 ∧ c.toNat ≤ 90
  · rw [if_pos h]
    have ht : (Char.ofNat (c.toNat + 32)).toNat = c.toNat + 32 :=
      char_toNat_ofNat (valid_small (by omega))
    rw [ht, if_pos (by omega), if_neg (by omega)]
    have he : c.toNat + 32 - 32 = c.toNat := by omega
    rw [he, Char.ofNat_toNat]
  · rw [if_neg h]

/-- Inverting `toLower`: the preimage of a lower-case letter `l` whose
    upper-case partner is `u` is `{l, u}`. -/
theorem toLower_eq_of {c l u : Char} (hu : u.toNat = l.toNat - 32)
    (h : c.toLower = l) : c = l ∨ c = u := by
  unfold Char.toLower at h
  by_cases hr : c.toNat ≥ 65 ∧ c.toNat ≤ 90
  · rw [if_pos hr] at h
    right
    have ht : (Char.ofNat (c.toNat + 32)).toNat = c.toNat + 32 :=
      char_toNat_ofNat (valid_small (by omega))
    apply char_toNat_inj
    have hn := congrArg Char.toNat h
    rw [ht] at hn
    omega
  · rw [if_neg hr] at h
    left
    exact h

/-- Upper-casing a digit is the identity. -/
theorem toUpper_digit {c : Char} (h : c.isDigit = true) : c.toUpper = c := by
  unfold Char.toUpper
  have hd : 48 ≤ c.toNat ∧ c.toNat ≤ 57 := by
    simp [Char.isDigit] at h
    exact ⟨h.1, h.2⟩
  rw [if_neg (by omega)]

/-- The upper-case image of a character with known lower-case image. -/
theorem toUpper_of_low {c l u : Char} (h : c.toLower = l) (hu : l.toUpper = u) :
    c.toUpper = u := by
  rw [← toUpper_toLower, h, hu]

/-- `ciEq` succeeds on characters with equal lower-case image. -/
theorem ciEq_low_true {l c : Char} (h : c.toLower = l.toLower) : ciEq l c = true := by
  unfold ciEq
  rw [h]
  exact beq_self_eq_true _

/-- `ciEq` fails on characters with distinct lower-case images. -/
theorem ciEq_low_false {l c x : Char} (h : c.toLower = x) (hx : l.toLower ≠ x) :
    ciEq l c = false := by
  unfold ciEq
  rw [h]
  exact beq_eq_false_iff_ne.mpr hx

/-- Enumerate the characters of the class `\s`. -/
theorem space_chars {a : Char} (ha : isSpaceChar a = true) :
    a = ' ' ∨ a = '\t' ∨ a = '\n' ∨ a = '\r' ∨ a = '\x0b' ∨ a = '\x0c' := by
  have hd := by simpa [isSpaceChar] using ha
  tauto

/-- Whitespace characters are fixed by `toLower`. -/
theorem space_toLower {a : Char} (ha : isSpaceChar a = true) : a.toLower = a := by
  rcases space_chars ha with rfl | rfl | rfl | rfl | rfl | rfl <;> decide

/-- A letter never `ciEq`-matches a whitespace character. -/
theorem ciEq_space_false {l a : Char} (ha : isSpaceChar a = true)
    (hl : isSpaceChar l.toLower = false) : ciEq l a = false := by
  unfold ciEq
  rw [space_toLower ha]
  by_contra hb
  have hba : l.toLower = a := by simpa using hb
  rw [hba] at hl
  rw [hl] at ha
  cases ha

/-- A character lowering to `h` is not whitespace. -/
theorem not_space_of_low_h {c : Char} (h : c.toLower = 'h') : isSpaceChar c = false := by
  by_contra hc
  have hc2 : isSpaceChar c = true := by simpa using hc
  have hch : c = 'h' := (space_toLower hc2).symm.trans h
  rw [hch] at hc2
  cases hc2

/-- A character lowering to `h` is not `[`. -/
theorem ne_bracket_of_low_h {c : Char} (h : c.toLower = 'h') : c ≠ '[' := by
  intro hb
  rw [hb] at h
  cases h

/-! ### `consumeCI` lemmas -/

/-- A mismatch at the head makes `consumeCI` fail. -/
theorem consumeCI_head_false {p c : Char} {ps cs : List Char} (h : ciEq p c = false) :
    consumeCI (p :: ps) (c :: cs) = none := by
  simp [consumeCI, h]

/-- A match at the head steps `consumeCI`. -/
theorem consumeCI_head_true {p c : Char} {ps cs : List Char} (h : ciEq p c = true) :
    consumeCI (p :: ps) (c :: cs) =
      match consumeCI ps cs with
      | some (k, r) => some (c :: k, r)
      | none => none := by
  simp [consumeCI, h]

/-- Soundness of `consumeCI`: on success the input splits into the consumed
    part, matching the pattern character by character, and the rest. -/
theorem consumeCI_sound :
    ∀ (ps s k r : List Char), consumeCI ps s = some (k, r) →
      s = k ++ r ∧ List.Forall₂ (fun p c => ciEq p c = true) ps k := by
  intro ps
  induction ps with
  | nil =>
    intro s k r h
    unfold consumeCI at h
    cases h
    exact ⟨rfl, List.Forall₂.nil⟩
  | cons p ps ih =>
    intro s k r h
    cases s with
    | nil => cases h
    | cons c cs =>
      by_cases hc : ciEq p c = true
      · rw [consumeCI_head_true hc] at h
        cases hk : consumeCI ps cs with
        | none => rw [hk] at h; cases h
        | some pr =>
          obtain ⟨k2, r2⟩ := pr
          rw [hk] at h
          injection h with h2
          injection h2 with hk1 hr1
          subst hk1
          subst hr1
          obtain ⟨h1, h2⟩ := ih cs k2 r2 hk
          exact ⟨by rw [h1]; rfl, List.Forall₂.cons hc h2⟩
      · rw [consumeCI_head_false (by simpa using hc)] at h
        cases h

/-- Completeness of `consumeCI`: a character-wise match consumes exactly the
    matched characters. -/
theorem consumeCI_complete :
    ∀ {ps k : List Char}, List.Forall₂ (fun p c => ciEq p c = true) ps k →
      ∀ (r : List Char), consumeCI ps (k ++ r) = some (k, r) := by
  intro ps k h
  induction h with
  | nil => intro r; rfl
  | cons hpc _ ih =>
    intro r
    rw [List.cons_append, consumeCI_head_true hpc, ih r]

/-- `litThenCI` fails when the first pattern character mismatches. -/
theorem litThenCI_head_false {lit : String} {p : Char} {ps : List Char}
    (hl : lit.toList = p :: ps) {c : Char} {cs : List Char} (h : ciEq p c = false)
    (k : List Char → Bool) : litThenCI lit (c :: cs) k = false := by
  unfold litThenCI
  rw [hl, consumeCI_head_false h]

/-! ### Whitespace-prefix behaviour of the skip patterns -/

/-- Dropping spaces skips a leading whitespace character. -/
theorem dropSpaces_cons_space {a : Char} (ha : isSpaceChar a = true) (w : List Char) :
    dropSpaces (a :: w) = dropSpaces w := by
  unfold dropSpaces
  rw [List.dropWhile_cons_of_pos (by simpa using ha)]

/-- Dropping spaces stops at a non-whitespace character. -/
theorem dropSpaces_cons_other {a : Char} (ha : isSpaceChar a = false) (w : List Char) :
    dropSpaces (a :: w) = a :: w := by
  unfold dropSpaces
  rw [List.dropWhile_cons_of_neg (by simp [ha])]

/-- Skip patterns 3–8 ignore one leading whitespace character. -/
theorem skips38_cons_space {a : Char} (ha : isSpaceChar a = true) (w : List Char) :
    skip3 (a :: w) = skip3 w ∧ skip4 (a :: w) = skip4 w ∧ skip5 (a :: w) = skip5 w ∧
    skip6 (a :: w) = skip6 w ∧ skip7 (a :: w) = skip7 w ∧ skip8 (a :: w) = skip8 w := by
  have hd := dropSpaces_cons_space ha w
  unfold skip3 skip4 skip5 skip6 skip7 skip8
  rw [hd]
  exact ⟨rfl, rfl, rfl, rfl, rfl, rfl⟩

/-- No skip pattern matches an input whose first character after an optional
    run of whitespace and `[` characters lowers to `h`. -/
theorem skips_false_of_lead :
    ∀ (pre : List Char), (∀ c ∈ pre, isSpaceChar c = true ∨ c = '[') →
    ∀ (c0 : Char), c0.toLower = 'h' → ∀ (s : List Char),
      skip1 (pre ++ c0 :: s) = false ∧ skip2 (pre ++ c0 :: s) = false ∧
      skip3 (pre ++ c0 :: s) = false ∧ skip4 (pre ++ c0 :: s) = false ∧
      skip5 (pre ++ c0 :: s) = false ∧ skip6 (pre ++ c0 :: s) = false ∧
      skip7 (pre ++ c0 :: s) = false ∧ skip8 (pre ++ c0 :: s) = false := by
  intro pre
  induction pre with
  | nil =>
    intro _ c0 h0 s
    have hsp : isSpaceChar c0 = false := not_space_of_low_h h0
    have hdrop : dropSpaces (c0 :: s) = c0 :: s := dropSpaces_cons_other hsp s
    have hp : ciEq 'p' c0 = false := ciEq_low_false h0 (by decide)
    have hu : ciEq 'u' c0 = false := ciEq_low_false h0 (by decide)
    have hb : ciEq 'b' c0 = false := ciEq_low_false h0 (by decide)
    simp only [List.nil_append]
    refine ⟨?_, ?_, ?_, ?_, ?_, ?_, ?_, ?_⟩
    · exact litThenCI_head_false rfl hp _
    · exact litThenCI_head_false rfl hp _
    · unfold skip3
      rw [hdrop]
      exact litThenCI_head_false rfl hu _
    · unfold skip4
      rw [hdrop]
      exact litThenCI_head_false rfl hu _
    · unfold skip5
      rw [hdrop]
      exact litThenCI_head_false rfl hu _
    · unfold skip6
      rw [hdrop]
      exact litThenCI_head_false rfl hu _
    · unfold skip7
      rw [hdrop]
      exact litThenCI_head_false rfl hb _
    · unfold skip8
      rw [hdrop]
      exact litThenCI_head_false rfl hu _
  | cons a pre ih =>
    intro h c0 h0 s
    simp only [List.cons_append]
    rcases h a (by simp) with ha | rfl
    · obtain ⟨i1, i2, i3, i4, i5, i6, i7, i8⟩ :=
        ih (fun c hc => h c (by simp [hc])) c0 h0 s
      obtain ⟨e3, e4, e5, e6, e7, e8⟩ := skips38_cons_space ha (pre ++ c0 :: s)
      have hp : ciEq 'p' a = false := ciEq_space_false ha (by decide)
      refine ⟨litThenCI_head_false rfl hp _, litThenCI_head_false rfl hp _,
        e3.trans i3, e4.trans i4, e5.trans i5, e6.trans i6, e7.trans i7, e8.trans i8⟩
    · have hdrop : dropSpaces ('[' :: (pre ++ c0 :: s)) = '[' :: (pre ++ c0 :: s) :=
        dropSpaces_cons_other (by decide) _
      refine ⟨?_, ?_, ?_, ?_, ?_, ?_, ?_, ?_⟩
      · exact litThenCI_head_false rfl (by decide) _
      · exact litThenCI_head_false rfl (by decide) _
      · unfold skip3
        rw [hdrop]
        exact litThenCI_head_false rfl (by decide) _
      · unfold skip4
        rw [hdrop]
        exact litThenCI_head_false rfl (by decide) _
      · unfold skip5
        rw [hdrop]
        exact litThenCI_head_false rfl (by decide) _
      · unfold skip6
        rw [hdrop]
        exact litThenCI_head_false rfl (by decide) _
      · unfold skip7
        rw [hdrop]
        exact litThenCI_head_false rfl (by decide) _
      · unfold skip8
        rw [hdrop]
        exact litThenCI_head_false rfl (by decide) _

/-! ### Digit runs, the captured group, and normalization -/

/-- The maximal digit run of `ds ++ rest` is `ds` when `ds` is all digits and
    `rest` does not begin with a digit. -/
theorem takeWhile_digits_append {ds rest : List Char}
    (hds : ∀ c ∈ ds, Char.isDigit c = true)
    (hrest : ∀ c ∈ rest.take 1, Char.isDigit c = false) :
    (ds ++ rest).takeWhile Char.isDigit = ds := by
  induction ds with
  | nil =>
    cases rest with
    | nil => rfl
    | cons r rs =>
      simp only [List.nil_append]
      rw [List.takeWhile_cons_of_neg (by simp [hrest r (by simp)])]
  | cons d tl ih =>
    simp only [List.cons_append]
    rw [List.takeWhile_cons_of_pos (hds d (by simp)), ih (fun c hc => hds c (by simp [hc]))]

/-- Stripping the class `[\s\[]*` from an input made of such characters
    followed by a character lowering to `h`. -/
theorem dropSpaceBracket_lead {pre : List Char}
    (h : ∀ c ∈ pre, isSpaceChar c = true ∨ c = '[')
    {c0 : Char} (h0 : c0.toLower = 'h') (s : List Char) :
    dropSpaceBracket (pre ++ c0 :: s) = c0 :: s := by
  have h1 : ∀ a ∈ pre, (isSpaceChar a || a == '[') = true := by
    intro a ha
    rcases h a ha with h2 | rfl
    · simp [h2]
    · simp
  unfold dropSpaceBracket
  rw [List.dropWhile_append_of_pos h1,
    List.dropWhile_cons_of_neg (by simp [not_space_of_low_h h0, ne_bracket_of_low_h h0])]

/-- Upper-casing an all-digit list is the identity. -/
theorem map_toUpper_digits {ds : List Char} (h : ∀ c ∈ ds, Char.isDigit c = true) :
    ds.map Char.toUpper = ds := by
  induction ds with
  | nil => rfl
  | cons d tl ih =>
    simp only [List.map_cons]
    rw [toUpper_digit (h d (by simp)), ih (fun c hc => h c (by simp [hc]))]

/-- Characters consumed by a case-insensitive literal match upper-case to the
    upper-cased literal. -/
theorem map_toUpper_of_forall₂ {ps k : List Char}
    (h : List.Forall₂ (fun p c => ciEq p c = true) ps k) :
    k.map Char.toUpper = ps.map Char.toUpper := by
  induction h with
  | nil => rfl
  | @cons p c ps2 k2 hpc htl ih =>
    simp only [List.map_cons]
    have hlc : p.toLower = c.toLower := by simpa [ciEq] using hpc
    rw [ih]
    have hu : c.toUpper = p.toUpper := by
      rw [← toUpper_toLower c, ← toUpper_toLower p, hlc]
    rw [hu]

/-- `subHbase` leaves a character other than `H` in place. -/
theorem subHbase_cons_not_H {d : Char} (hd : d ≠ 'H') (tl : List Char) :
    subHbase (d :: tl) = d :: subHbase tl := by
  rw [subHbase.eq_def]
  split <;> simp_all

/-- `subHbase` is the identity on all-digit input. -/
theorem subHbase_digits {ds : List Char} (h : ∀ c ∈ ds, Char.isDigit c = true) :
    subHbase ds = ds := by
  induction ds with
  | nil => rfl
  | cons d tl ih =>
    have hd : d ≠ 'H' := by
      intro he
      have h2 := h d (by simp)
      rw [he] at h2
      cases h2
    rw [subHbase_cons_not_H hd, ih (fun c hc => h c (by simp [hc]))]

/-- `subHbase` leaves a canonical `HBASE-<digits>` group unchanged. -/
theorem subHbase_canonical {ds : List Char} (h : ∀ c ∈ ds, Char.isDigit c = true) :
    subHbase ('H' :: 'B' :: 'A' :: 'S' :: 'E' :: '-' :: ds) =
      'H' :: 'B' :: 'A' :: 'S' :: 'E' :: '-' :: ds := by
  have e : subHbase ('H' :: 'B' :: 'A' :: 'S' :: 'E' :: '-' :: ds) =
      'H' :: 'B' :: 'A' :: 'S' :: 'E' :: '-' :: subHbase ds := rfl
  rw [e, subHbase_digits h]

/-- `subHbase` rewrites an upper-cased `HBSE-<digits>` group to canonical form. -/
theorem subHbase_hbse {ds : List Char} (h : ∀ c ∈ ds, Char.isDigit c = true) :
    subHbase ('H' :: 'B' :: 'S' :: 'E' :: '-' :: ds) =
      'H' :: 'B' :: 'A' :: 'S' :: 'E' :: '-' :: ds := by
  have e : subHbase ('H' :: 'B' :: 'S' :: 'E' :: '-' :: ds) =
      'H' :: 'B' :: 'A' :: 'S' :: 'E' :: '-' :: subHbase ds := rfl
  rw [e, subHbase_digits h]

/-- `subHbase` rewrites an upper-cased `HBAE-<digits>` group to canonical form. -/
theorem subHbase_hbae {ds : List Char} (h : ∀ c ∈ ds, Char.isDigit c = true) :
    subHbase ('H' :: 'B' :: 'A' :: 'E' :: '-' :: ds) =
      'H' :: 'B' :: 'A' :: 'S' :: 'E' :: '-' :: ds := by
  have e : subHbase ('H' :: 'B' :: 'A' :: 'E' :: '-' :: ds) =
      'H' :: 'B' :: 'A' :: 'S' :: 'E' :: '-' :: subHbase ds := rfl
  rw [e, subHbase_digits h]

/-- `subHbase` rewrites an upper-cased `HBASE <digits>` group to canonical form. -/
theorem subHbase_hbase_space {ds : List Char} (h : ∀ c ∈ ds, Char.isDigit c = true) :
    subHbase ('H' :: 'B' :: 'A' :: 'S' :: 'E' :: ' ' :: ds) =
      'H' :: 'B' :: 'A' :: 'S' :: 'E' :: '-' :: ds := by
  have e : subHbase ('H' :: 'B' :: 'A' :: 'S' :: 'E' :: ' ' :: ds) =
      'H' :: 'B' :: 'A' :: 'S' :: 'E' :: '-' :: subHbase ds := rfl
  rw [e, subHbase_digits h]

/-! ### `matchIdPattern` and `firstIdMatch` lemmas -/

/-- Forward evaluation of `matchIdPattern` on a successful literal match
    followed by a known digit run. -/
theorem matchIdPattern_eval {lit : String} {t k r ds : List Char}
    (hc : consumeCI lit.toList t = some (k, r)) (hds : r.takeWhile Char.isDigit = ds)
    (hne : ds ≠ []) : matchIdPattern lit t = some (k ++ ds) := by
  have he : ds.isEmpty = false := by
    cases ds with
    | nil => exact absurd rfl hne
    | cons x xs => rfl
  unfold matchIdPattern
  rw [hc]
  show (if (r.takeWhile Char.isDigit).isEmpty then none
    else some (k ++ r.takeWhile Char.isDigit)) = some (k ++ ds)
  rw [hds, he]
  rfl

/-- `matchIdPattern` fails when its literal fails to match. -/
theorem matchIdPattern_none {lit : String} {t : List Char}
    (hc : consumeCI lit.toList t = none) : matchIdPattern lit t = none := by
  unfold matchIdPattern
  rw [hc]

/-- Inversion of `matchIdPattern`. -/
theorem matchIdPattern_sound {lit : String} {t g : List Char}
    (h : matchIdPattern lit t = some g) :
    ∃ k r, consumeCI lit.toList t = some (k, r) ∧
      r.takeWhile Char.isDigit ≠ [] ∧ g = k ++ r.takeWhile Char.isDigit := by
  unfold matchIdPattern at h
  cases hc : consumeCI lit.toList t with
  | none => rw [hc] at h; cases h
  | some pr =>
    obtain ⟨k, r⟩ := pr
    rw [hc] at h
    by_cases he : (r.takeWhile Char.isDigit).isEmpty = true
    · simp [he] at h
    · simp only [he, if_false, Bool.false_eq_true] at h
      refine ⟨k, r, rfl, by simpa using he, ?_⟩
      injection h with h2
      exact h2.symm

/-- `firstIdMatch` when the first pattern succeeds. -/
theorem firstIdMatch_eval1 {t0 t g : List Char} (hd : dropSpaceBracket t0 = t)
    (h1 : matchIdPattern "hbase-" t = some g) : firstIdMatch t0 = some g := by
  unfold firstIdMatch
  rw [hd]
  simp [h1]

/-- `firstIdMatch` when only the second pattern succeeds. -/
theorem firstIdMatch_eval2 {t0 t g : List Char} (hd : dropSpaceBracket t0 = t)
    (h1 : matchIdPattern "hbase-" t = none)
    (h2 : matchIdPattern "hbse-" t = some g) : firstIdMatch t0 = some g := by
  unfold firstIdMatch
  rw [hd]
  simp [h1, h2]

/-- `firstIdMatch` when only the third pattern succeeds. -/
theorem firstIdMatch_eval3 {t0 t g : List Char} (hd : dropSpaceBracket t0 = t)
    (h1 : matchIdPattern "hbase-" t = none) (h2 : matchIdPattern "hbse-" t = none)
    (h3 : matchIdPattern "hbae-" t = some g) : firstIdMatch t0 = some g := by
  unfold firstIdMatch
  rw [hd]
  simp [h1, h2, h3]

/-- `firstIdMatch` when only the fourth pattern succeeds. -/
theorem firstIdMatch_eval4 {t0 t g : List Char} (hd : dropSpaceBracket t0 = t)
    (h1 : matchIdPattern "hbase-" t = none) (h2 : matchIdPattern "hbse-" t = none)
    (h3 : matchIdPattern "hbae-" t = none)
    (h4 : matchIdPattern "hbase " t = some g) : firstIdMatch t0 = some g := by
  unfold firstIdMatch
  rw [hd]
  simp [h1, h2, h3, h4]

/-- Inversion of `firstIdMatch`: the group comes from one of the four
    patterns. -/
theorem firstIdMatch_sound {t0 g : List Char} (h : firstIdMatch t0 = some g) :
    matchIdPattern "hbase-" (dropSpaceBracket t0) = some g ∨
    matchIdPattern "hbse-" (dropSpaceBracket t0) = some g ∨
    matchIdPattern "hbae-" (dropSpaceBracket t0) = some g ∨
    matchIdPattern "hbase " (dropSpaceBracket t0) = some g := by
  replace h : (match matchIdPattern "hbase-" (dropSpaceBracket t0) with
    | some g => some g
    | none =>
      match matchIdPattern "hbse-" (dropSpaceBracket t0) with
      | some g => some g
      | none =>
        match matchIdPattern "hbae-" (dropSpaceBracket t0) with
        | some g => some g
        | none => matchIdPattern "hbase " (dropSpaceBracket t0)) = some g := h
  cases h1 : matchIdPattern "hbase-" (dropSpaceBracket t0) with
  | some g1 =>
    rw [h1] at h
    exact Or.inl h
  | none =>
    rw [h1] at h
    cases h2 : matchIdPattern "hbse-" (dropSpaceBracket t0) with
    | some g2 =>
      rw [h2] at h
      exact Or.inr (Or.inl h)
    | none =>
      rw [h2] at h
      cases h3 : matchIdPattern "hbae-" (dropSpaceBracket t0) with
      | some g3 =>
        rw [h3] at h
        exact Or.inr (Or.inr (Or.inl h))
      | none =>
        rw [h3] at h
        exact Or.inr (Or.inr (Or.inr h))

/-- C9: whenever extraction returns a value, that value is exactly `HBASE-`
    followed by one or more digits — never a lower-case letter, a typo
    prefix, a space separator, or any surrounding text. -/
theorem extract_result_canonical (c : Commit) (v : String)
    (h : extract_leading_jira_id c = some v) :
    ∃ ds : List Char, ds ≠ [] ∧ (∀ ch ∈ ds, Char.isDigit ch = true) ∧
      v = String.mk ('H' :: 'B' :: 'A' :: 'S' :: 'E' :: '-' :: ds) := by
  unfold extract_leading_jira_id at h
  by_cases hs : _skip c.summary = true
  · rw [if_pos hs] at h
    cases h
  · rw [if_neg hs] at h
    cases hm : firstIdMatch c.summary.toList with
    | none =>
      rw [hm] at h
      exact Option.noConfusion h
    | some g =>
      rw [hm] at h
      have hv : v = String.mk (subHbase (g.map Char.toUpper)) := by
        have h2 : some (String.mk (subHbase (g.map Char.toUpper))) = some v := h
        injection h2 with h3
        exact h3.symm
      rcases firstIdMatch_sound hm with h1 | h1 | h1 | h1
      · obtain ⟨k, r, hc, hne, hg⟩ := matchIdPattern_sound h1
        obtain ⟨heq, hf⟩ := consumeCI_sound _ _ _ _ hc
        refine ⟨r.takeWhile Char.isDigit, hne,
          fun ch hch => List.mem_takeWhile_imp hch, ?_⟩
        rw [hv, hg, List.map_append, map_toUpper_of_forall₂ hf,
          map_toUpper_digits (fun ch hch => List.mem_takeWhile_imp hch),
          show ("hbase-".toList.map Char.toUpper) =
            'H' :: 'B' :: 'A' :: 'S' :: 'E' :: '-' :: [] from by decide]
        simp only [List.cons_append, List.nil_append]
        rw [subHbase_canonical (fun ch hch => List.mem_takeWhile_imp hch)]
      · obtain ⟨k, r, hc, hne, hg⟩ := matchIdPattern_sound h1
        obtain ⟨heq, hf⟩ := consumeCI_sound _ _ _ _ hc
        refine ⟨r.takeWhile Char.isDigit, hne,
          fun ch hch => List.mem_takeWhile_imp hch, ?_⟩
        rw [hv, hg, List.map_append, map_toUpper_of_forall₂ hf,
          map_toUpper_digits (fun ch hch => List.mem_takeWhile_imp hch),
          show ("hbse-".toList.map Char.toUpper) =
            'H' :: 'B' :: 'S' :: 'E' :: '-' :: [] from by decide]
        simp only [List.cons_append, List.nil_append]
        rw [subHbase_hbse (fun ch hch => List.mem_takeWhile_imp hch)]
      · obtain ⟨k, r, hc, hne, hg⟩ := matchIdPattern_sound h1
        obtain ⟨heq, hf⟩ := consumeCI_sound _ _ _ _ hc
        refine ⟨r.takeWhile Char.isDigit, hne,
          fun ch hch => List.mem_takeWhile_imp hch, ?_⟩
        rw [hv, hg, List.map_append, map_toUpper_of_forall₂ hf,
          map_toUpper_digits (fun ch hch => List.mem_takeWhile_imp hch),
          show ("hbae-".toList.map Char.toUpper) =
            'H' :: 'B' :: 'A' :: 'E' :: '-' :: [] from by decide]
        simp only [List.cons_append, List.nil_append]
        rw [subHbase_hbae (fun ch hch => List.mem_takeWhile_imp hch)]
      · obtain ⟨k, r, hc, hne, hg⟩ := matchIdPattern_sound h1
        obtain ⟨heq, hf⟩ := consumeCI_sound _ _ _ _ hc
        refine ⟨r.takeWhile Char.isDigit, hne,
          fun ch hch => List.mem_takeWhile_imp hch, ?_⟩
        rw [hv, hg, List.map_append, map_toUpper_of_forall₂ hf,
          map_toUpper_digits (fun ch hch => List.mem_takeWhile_imp hch),
          show ("hbase ".toList.map Char.toUpper) =
            'H' :: 'B' :: 'A' :: 'S' :: 'E' :: ' ' :: [] from by decide]
        simp only [List.cons_append, List.nil_append]
        rw [subHbase_hbase_space (fun ch hch => List.mem_takeWhile_imp hch)]

/-- Witness for C9 at a typo-prefixed summary. -/
theorem extract_result_canonical_witness :
    ∃ ds : List Char, ds ≠ [] ∧ (∀ ch ∈ ds, Char.isDigit ch = true) ∧
      ("HBASE-45" : String) = String.mk ('H' :: 'B' :: 'A' :: 'S' :: 'E' :: '-' :: ds) :=
  extract_result_canonical ⟨"HBSE-45 backport"⟩ "HBASE-45" (by decide)

/-- `_skip` rejects nothing on a summary whose first character after optional
    whitespace/`[` characters lowers to `h`. -/
theorem skip_mk_false {pre : List Char} (hpre : ∀ c ∈ pre, isSpaceChar c = true ∨ c = '[')
    {c0 : Char} (h0 : c0.toLower = 'h') (s : List Char) :
    _skip (String.mk (pre ++ c0 :: s)) = false := by
  obtain ⟨a1, a2, a3, a4, a5, a6, a7, a8⟩ := skips_false_of_lead pre hpre c0 h0 s
  unfold _skip
  have ht : (String.mk (pre ++ c0 :: s)).toList = pre ++ c0 :: s := rfl
  rw [ht, a1, a2, a3, a4, a5, a6, a7, a8]
  rfl

/-- Evaluation of `extract_leading_jira_id` when the skip filter rejects
    nothing and an id pattern matches. -/
theorem extract_eval {t : List Char} (hsk : _skip (String.mk t) = false)
    {g : List Char} (hm : firstIdMatch t = some g) :
    extract_leading_jira_id ⟨String.mk t⟩ =
      some (String.mk (subHbase (g.map Char.toUpper))) := by
  unfold extract_leading_jira_id
  have e1 : Commit.summary ⟨String.mk t⟩ = String.mk t := rfl
  have e2 : (String.mk t).toList = t := rfl
  rw [e1, hsk, e2, hm]
  rfl

/-- C2: a commit summary beginning, after optional whitespace/`[` characters,
    with one of the leading tokens `HBASE-<digits>`, `HBSE-<digits>`,
    `HBAE-<digits>` or `HBASE <digits>` in any letter case yields the
    upper-cased token with its prefix and separator normalized to `HBASE-`;
    the four conjuncts correspond to the four patterns of
    `_identify_leading_jira_id_patterns` in their fixed order (the proof of
    each later conjunct establishes that every earlier pattern fails). -/
theorem extract_normalizes_leading_id :
    (∀ (pre : List Char), (∀ c ∈ pre, isSpaceChar c = true ∨ c = '[') →
     ∀ (c0 c1 c2 c3 c4 c5 : Char),
      c0.toLower = 'h' → c1.toLower = 'b' → c2.toLower = 'a' → c3.toLower = 's' →
      c4.toLower = 'e' → c5.toLower = '-' →
     ∀ (ds rest : List Char), ds ≠ [] → (∀ c ∈ ds, Char.isDigit c = true) →
      (∀ c ∈ rest.take 1, Char.isDigit c = false) →
      extract_leading_jira_id
          ⟨String.mk (pre ++ c0 :: c1 :: c2 :: c3 :: c4 :: c5 :: (ds ++ rest))⟩ =
        some (String.mk ('H' :: 'B' :: 'A' :: 'S' :: 'E' :: '-' :: ds))) ∧
    (∀ (pre : List Char), (∀ c ∈ pre, isSpaceChar c = true ∨ c = '[') →
     ∀ (c0 c1 c2 c3 c4 : Char),
      c0.toLower = 'h' → c1.toLower = 'b' → c2.toLower = 's' → c3.toLower = 'e' →
      c4.toLower = '-' →
     ∀ (ds rest : List Char), ds ≠ [] → (∀ c ∈ ds, Char.isDigit c = true) →
      (∀ c ∈ rest.take 1, Char.isDigit c = false) →
      extract_leading_jira_id
          ⟨String.mk (pre ++ c0 :: c1 :: c2 :: c3 :: c4 :: (ds ++ rest))⟩ =
        some (String.mk ('H' :: 'B' :: 'A' :: 'S' :: 'E' :: '-' :: ds))) ∧
    (∀ (pre : List Char), (∀ c ∈ pre, isSpaceChar c = true ∨ c = '[') →
     ∀ (c0 c1 c2 c3 c4 : Char),
      c0.toLower = 'h' → c1.toLower = 'b' → c2.toLower = 'a' → c3.toLower = 'e' →
      c4.toLower = '-' →
     ∀ (ds rest : List Char), ds ≠ [] → (∀ c ∈ ds, Char.isDigit c = true) →
      (∀ c ∈ rest.take 1, Char.isDigit c = false) →
      extract_leading_jira_id
          ⟨String.mk (pre ++ c0 :: c1 :: c2 :: c3 :: c4 :: (ds ++ rest))⟩ =
        some (String.mk ('H' :: 'B' :: 'A' :: 'S' :: 'E' :: '-' :: ds))) ∧
    (∀ (pre : List Char), (∀ c ∈ pre, isSpaceChar c = true ∨ c = '[') →
     ∀ (c0 c1 c2 c3 c4 c5 : Char),
      c0.toLower = 'h' → c1.toLower = 'b' → c2.toLower = 'a' → c3.toLower = 's' →
      c4.toLower = 'e' → c5.toLower = ' ' →
     ∀ (ds rest : List Char), ds ≠ [] → (∀ c ∈ ds, Char.isDigit c = true) →
      (∀ c ∈ rest.take 1, Char.isDigit c = false) →
      extract_leading_jira_id
          ⟨String.mk (pre ++ c0 :: c1 :: c2 :: c3 :: c4 :: c5 :: (ds ++ rest))⟩ =
        some (String.mk ('H' :: 'B' :: 'A' :: 'S' :: 'E' :: '-' :: ds))) := by
  refine ⟨?_, ?_, ?_, ?_⟩
  · intro pre hpre c0 c1 c2 c3 c4 c5 h0 h1 h2 h3 h4 h5 ds rest hne hdig hrest
    have hsk := skip_mk_false hpre h0 (c1 :: c2 :: c3 :: c4 :: c5 :: (ds ++ rest))
    have hd := dropSpaceBracket_lead hpre h0 (c1 :: c2 :: c3 :: c4 :: c5 :: (ds ++ rest))
    have hfor : List.Forall₂ (fun p c => ciEq p c = true) "hbase-".toList
        [c0, c1, c2, c3, c4, c5] := by
      refine List.Forall₂.cons (ciEq_low_true (by rw [h0]; decide)) ?_
      refine List.Forall₂.cons (ciEq_low_true (by rw [h1]; decide)) ?_
      refine List.Forall₂.cons (ciEq_low_true (by rw [h2]; decide)) ?_
      refine List.Forall₂.cons (ciEq_low_true (by rw [h3]; decide)) ?_
      refine List.Forall₂.cons (ciEq_low_true (by rw [h4]; decide)) ?_
      exact List.Forall₂.cons (ciEq_low_true (by rw [h5]; decide)) List.Forall₂.nil
    have hc : consumeCI "hbase-".toList
        (c0 :: c1 :: c2 :: c3 :: c4 :: c5 :: (ds ++ rest)) =
        some ([c0, c1, c2, c3, c4, c5], ds ++ rest) := consumeCI_complete hfor (ds ++ rest)
    have hmp := matchIdPattern_eval hc (takeWhile_digits_append hdig hrest) hne
    have hfirst := firstIdMatch_eval1 hd hmp
    have u0 : c0.toUpper = 'H' := toUpper_of_low h0 (by decide)
    have u1 : c1.toUpper = 'B' := toUpper_of_low h1 (by decide)
    have u2 : c2.toUpper = 'A' := toUpper_of_low h2 (by decide)
    have u3 : c3.toUpper = 'S' := toUpper_of_low h3 (by decide)
    have u4 : c4.toUpper = 'E' := toUpper_of_low h4 (by decide)
    have u5 : c5.toUpper = '-' := toUpper_of_low h5 (by decide)
    rw [extract_eval hsk hfirst, List.map_append, map_toUpper_digits hdig]
    simp only [List.map_cons, List.map_nil, u0, u1, u2, u3, u4, u5]
    simp only [List.cons_append, List.nil_append]
    rw [subHbase_canonical hdig]
  · intro pre hpre c0 c1 c2 c3 c4 h0 h1 h2 h3 h4 ds rest hne hdig hrest
    have hsk := skip_mk_false hpre h0 (c1 :: c2 :: c3 :: c4 :: (ds ++ rest))
    have hd := dropSpaceBracket_lead hpre h0 (c1 :: c2 :: c3 :: c4 :: (ds ++ rest))
    have s2 : consumeCI ('a' :: 's' :: 'e' :: '-' :: [])
        (c2 :: c3 :: c4 :: (ds ++ rest)) = none :=
      consumeCI_head_false (ciEq_low_false h2 (by decide))
    have s1 : consumeCI ('b' :: 'a' :: 's' :: 'e' :: '-' :: [])
        (c1 :: c2 :: c3 :: c4 :: (ds ++ rest)) = none := by
      rw [consumeCI_head_true (ciEq_low_true (by rw [h1]; decide)), s2]
    have s0 : consumeCI "hbase-".toList
        (c0 :: c1 :: c2 :: c3 :: c4 :: (ds ++ rest)) = none := by
      have e : "hbase-".toList = 'h' :: 'b' :: 'a' :: 's' :: 'e' :: '-' :: [] := rfl
      rw [e, consumeCI_head_true (ciEq_low_true (by rw [h0]; decide)), s1]
    have hfail1 := matchIdPattern_none s0
    have hfor : List.Forall₂ (fun p c => ciEq p c = true) "hbse-".toList
        [c0, c1, c2, c3, c4] := by
      refine List.Forall₂.cons (ciEq_low_true (by rw [h0]; decide)) ?_
      refine List.Forall₂.cons (ciEq_low_true (by rw [h1]; decide)) ?_
      refine List.Forall₂.cons (ciEq_low_true (by rw [h2]; decide)) ?_
      refine List.Forall₂.cons (ciEq_low_true (by rw [h3]; decide)) ?_
      exact List.Forall₂.cons (ciEq_low_true (by rw [h4]; decide)) List.Forall₂.nil
    have hc : consumeCI "hbse-".toList (c0 :: c1 :: c2 :: c3 :: c4 :: (ds ++ rest)) =
        some ([c0, c1, c2, c3, c4], ds ++ rest) := consumeCI_complete hfor (ds ++ rest)
    have hmp := matchIdPattern_eval hc (takeWhile_digits_append hdig hrest) hne
    have hfirst := firstIdMatch_eval2 hd hfail1 hmp
    have u0 : c0.toUpper = 'H' := toUpper_of_low h0 (by decide)
    have u1 : c1.toUpper = 'B' := toUpper_of_low h1 (by decide)
    have u2 : c2.toUpper = 'S' := toUpper_of_low h2 (by decide)
    have u3 : c3.toUpper = 'E' := toUpper_of_low h3 (by decide)
    have u4 : c4.toUpper = '-' := toUpper_of_low h4 (by decide)
    rw [extract_eval hsk hfirst, List.map_append, map_toUpper_digits hdig]
    simp only [List.map_cons, List.map_nil, u0, u1, u2, u3, u4]
    simp only [List.cons_append, List.nil_append]
    rw [subHbase_hbse hdig]
  · intro pre hpre c0 c1 c2 c3 c4 h0 h1 h2 h3 h4 ds rest hne hdig hrest
    have hsk := skip_mk_false hpre h0 (c1 :: c2 :: c3 :: c4 :: (ds ++ rest))
    have hd := dropSpaceBracket_lead hpre h0 (c1 :: c2 :: c3 :: c4 :: (ds ++ rest))
    have s3 : consumeCI ('s' :: 'e' :: '-' :: []) (c3 :: c4 :: (ds ++ rest)) = none :=
      consumeCI_head_false (ciEq_low_false h3 (by decide))
    have s2 : consumeCI ('a' :: 's' :: 'e' :: '-' :: [])
        (c2 :: c3 :: c4 :: (ds ++ rest)) = none := by
      rw [consumeCI_head_true (ciEq_low_true (by rw [h2]; decide)), s3]
    have s1 : consumeCI ('b' :: 'a' :: 's' :: 'e' :: '-' :: [])
        (c1 :: c2 :: c3 :: c4 :: (ds ++ rest)) = none := by
      rw [consumeCI_head_true (ciEq_low_true (by rw [h1]; decide)), s2]
    have s0 : consumeCI "hbase-".toList
        (c0 :: c1 :: c2 :: c3 :: c4 :: (ds ++ rest)) = none := by
      have e : "hbase-".toList = 'h' :: 'b' :: 'a' :: 's' :: 'e' :: '-' :: [] := rfl
      rw [e, consumeCI_head_true (ciEq_low_true (by rw [h0]; decide)), s1]
    have hfail1 := matchIdPattern_none s0
    have t2 : consumeCI ('s' :: 'e' :: '-' :: [])
        (c2 :: c3 :: c4 :: (ds ++ rest)) = none :=
      consumeCI_head_false (ciEq_low_false h2 (by decide))
    have t1 : consumeCI ('b' :: 's' :: 'e' :: '-' :: [])
        (c1 :: c2 :: c3 :: c4 :: (ds ++ rest)) = none := by
      rw [consumeCI_head_true (ciEq_low_true (by rw [h1]; decide)), t2]
    have t0 : consumeCI "hbse-".toList
        (c0 :: c1 :: c2 :: c3 :: c4 :: (ds ++ rest)) = none := by
      have e : "hbse-".toList = 'h' :: 'b' :: 's' :: 'e' :: '-' :: [] := rfl
      rw [e, consumeCI_head_true (ciEq_low_true (by rw [h0]; decide)), t1]
    have hfail2 := matchIdPattern_none t0
    have hfor : List.Forall₂ (fun p c => ciEq p c = true) "hbae-".toList
        [c0, c1, c2, c3, c4] := by
      refine List.Forall₂.cons (ciEq_low_true (by rw [h0]; decide)) ?_
      refine List.Forall₂.cons (ciEq_low_true (by rw [h1]; decide)) ?_
      refine List.Forall₂.cons (ciEq_low_true (by rw [h2]; decide)) ?_
      refine List.Forall₂.cons (ciEq_low_true (by rw [h3]; decide)) ?_
      exact List.Forall₂.cons (ciEq_low_true (by rw [h4]; decide)) List.Forall₂.nil
    have hc : consumeCI "hbae-".toList (c0 :: c1 :: c2 :: c3 :: c4 :: (ds ++ rest)) =
        some ([c0, c1, c2, c3, c4], ds ++ rest) := consumeCI_complete hfor (ds ++ rest)
    have hmp := matchIdPattern_eval hc (takeWhile_digits_append hdig hrest) hne
    have hfirst := firstIdMatch_eval3 hd hfail1 hfail2 hmp
    have u0 : c0.toUpper = 'H' := toUpper_of_low h0 (by decide)
    have u1 : c1.toUpper = 'B' := toUpper_of_low h1 (by decide)
    have u2 : c2.toUpper = 'A' := toUpper_of_low h2 (by decide)
    have u3 : c3.toUpper = 'E' := toUpper_of_low h3 (by decide)
    have u4 : c4.toUpper = '-' := toUpper_of_low h4 (by decide)
    rw [extract_eval hsk hfirst, List.map_append, map_toUpper_digits hdig]
    simp only [List.map_cons, List.map_nil, u0, u1, u2, u3, u4]
    simp only [List.cons_append, List.nil_append]
    rw [subHbase_hbae hdig]
  · intro pre hpre c0 c1 c2 c3 c4 c5 h0 h1 h2 h3 h4 h5 ds rest hne hdig hrest
    have hsk := skip_mk_false hpre h0 (c1 :: c2 :: c3 :: c4 :: c5 :: (ds ++ rest))
    have hd := dropSpaceBracket_lead hpre h0 (c1 :: c2 :: c3 :: c4 :: c5 :: (ds ++ rest))
    have p5 : consumeCI ('-' :: []) (c5 :: (ds ++ rest)) = none :=
      consumeCI_head_false (ciEq_low_false h5 (by decide))
    have p4 : consumeCI ('e' :: '-' :: []) (c4 :: c5 :: (ds ++ rest)) = none := by
      rw [consumeCI_head_true (ciEq_low_true (by rw [h4]; decide)), p5]
    have p3 : consumeCI ('s' :: 'e' :: '-' :: [])
        (c3 :: c4 :: c5 :: (ds ++ rest)) = none := by
      rw [consumeCI_head_true (ciEq_low_true (by rw [h3]; decide)), p4]
    have p2 : consumeCI ('a' :: 's' :: 'e' :: '-' :: [])
        (c2 :: c3 :: c4 :: c5 :: (ds ++ rest)) = none := by
      rw [consumeCI_head_true (ciEq_low_true (by rw [h2]; decide)), p3]
    have p1 : consumeCI ('b' :: 'a' :: 's' :: 'e' :: '-' :: [])
        (c1 :: c2 :: c3 :: c4 :: c5 :: (ds ++ rest)) = none := by
      rw [consumeCI_head_true (ciEq_low_true (by rw [h1]; decide)), p2]
    have p0 : consumeCI "hbase-".toList
        (c0 :: c1 :: c2 :: c3 :: c4 :: c5 :: (ds ++ rest)) = none := by
      have e : "hbase-".toList = 'h' :: 'b' :: 'a' :: 's' :: 'e' :: '-' :: [] := rfl
      rw [e, consumeCI_head_true (ciEq_low_true (by rw [h0]; decide)), p1]
    have hfail1 := matchIdPattern_none p0
    have q2 : consumeCI ('s' :: 'e' :: '-' :: [])
        (c2 :: c3 :: c4 :: c5 :: (ds ++ rest)) = none :=
      consumeCI_head_false (ciEq_low_false h2 (by decide))
    have q1 : consumeCI ('b' :: 's' :: 'e' :: '-' :: [])
        (c1 :: c2 :: c3 :: c4 :: c5 :: (ds ++ rest)) = none := by
      rw [consumeCI_head_true (ciEq_low_true (by rw [h1]; decide)), q2]
    have q0 : consumeCI "hbse-".toList
        (c0 :: c1 :: c2 :: c3 :: c4 :: c5 :: (ds ++ rest)) = none := by
      have e : "hbse-".toList = 'h' :: 'b' :: 's' :: 'e' :: '-' :: [] := rfl
      rw [e, consumeCI_head_true (ciEq_low_true (by rw [h0]; decide)), q1]
    have hfail2 := matchIdPattern_none q0
    have r3 : consumeCI ('e' :: '-' :: []) (c3 :: c4 :: c5 :: (ds ++ rest)) = none :=
      consumeCI_head_false (ciEq_low_false h3 (by decide))
    have r2 : consumeCI ('a' :: 'e' :: '-' :: [])
        (c2 :: c3 :: c4 :: c5 :: (ds ++ rest)) = none := by
      rw [consumeCI_head_true (ciEq_low_true (by rw [h2]; decide)), r3]
    have r1 : consumeCI ('b' :: 'a' :: 'e' :: '-' :: [])
        (c1 :: c2 :: c3 :: c4 :: c5 :: (ds ++ rest)) = none := by
      rw [consumeCI_head_true (ciEq_low_true (by rw [h1]; decide)), r2]
    have r0 : consumeCI "hbae-".toList
        (c0 :: c1 :: c2 :: c3 :: c4 :: c5 :: (ds ++ rest)) = none := by
      have e : "hbae-".toList = 'h' :: 'b' :: 'a' :: 'e' :: '-' :: [] := rfl
      rw [e, consumeCI_head_true (ciEq_low_true (by rw [h0]; decide)), r1]
    have hfail3 := matchIdPattern_none r0
    have hfor : List.Forall₂ (fun p c => ciEq p c = true) "hbase ".toList
        [c0, c1, c2, c3, c4, c5] := by
      refine List.Forall₂.cons (ciEq_low_true (by rw [h0]; decide)) ?_
      refine List.Forall₂.cons (ciEq_low_true (by rw [h1]; decide)) ?_
      refine List.Forall₂.cons (ciEq_low_true (by rw [h2]; decide)) ?_
      refine List.Forall₂.cons (ciEq_low_true (by rw [h3]; decide)) ?_
      refine List.Forall₂.cons (ciEq_low_true (by rw [h4]; decide)) ?_
      exact List.Forall₂.cons (ciEq_low_true (by rw [h5]; decide)) List.Forall₂.nil
    have hc : consumeCI "hbase ".toList
        (c0 :: c1 :: c2 :: c3 :: c4 :: c5 :: (ds ++ rest)) =
        some ([c0, c1, c2, c3, c4, c5], ds ++ rest) := consumeCI_complete hfor (ds ++ rest)
    have hmp := matchIdPattern_eval hc (takeWhile_digits_append hdig hrest) hne
    have hfirst := firstIdMatch_eval4 hd hfail1 hfail2 hfail3 hmp
    have u0 : c0.toUpper = 'H' := toUpper_of_low h0 (by decide)
    have u1 : c1.toUpper = 'B' := toUpper_of_low h1 (by decide)
    have u2 : c2.toUpper = 'A' := toUpper_of_low h2 (by decide)
    have u3 : c3.toUpper = 'S' := toUpper_of_low h3 (by decide)
    have u4 : c4.toUpper = 'E' := toUpper_of_low h4 (by decide)
    have u5 : c5.toUpper = ' ' := toUpper_of_low h5 (by decide)
    rw [extract_eval hsk hfirst, List.map_append, map_toUpper_digits hdig]
    simp only [List.map_cons, List.map_nil, u0, u1, u2, u3, u4, u5]
    simp only [List.cons_append, List.nil_append]
    rw [subHbase_hbase_space hdig]

/-- Witness for C2 at the spec's concrete examples: a bracketed canonical id
    and a lower-case typo id. -/
theorem extract_normalizes_leading_id_witness :
    extract_leading_jira_id
        ⟨String.mk (['['] ++ 'H' :: 'B' :: 'A' :: 'S' :: 'E' :: '-' ::
          (['1', '2', '3'] ++ "] fix thing".toList))⟩ =
      some (String.mk ('H' :: 'B' :: 'A' :: 'S' :: 'E' :: '-' :: ['1', '2', '3'])) ∧
    extract_leading_jira_id
        ⟨String.mk ([] ++ 'h' :: 'b' :: 's' :: 'e' :: '-' ::
          (['4', '5'] ++ " backport".toList))⟩ =
      some (String.mk ('H' :: 'B' :: 'A' :: 'S' :: 'E' :: '-' :: ['4', '5'])) :=
  ⟨extract_normalizes_leading_id.1 ['['] (by decide) 'H' 'B' 'A' 'S' 'E' '-'
      (by decide) (by decide) (by decide) (by decide) (by decide) (by decide)
      ['1', '2', '3'] "] fix thing".toList (by decide) (by decide) (by decide),
   extract_normalizes_leading_id.2.1 [] (by decide) 'h' 'b' 's' 'e' '-'
      (by decide) (by decide) (by decide) (by decide) (by decide)
      ['4', '5'] " backport".toList (by decide) (by decide) (by decide)⟩

end Audit
